import Mathlib

set_option linter.unusedVariables false

/-!
Verification of the C++ class code-generation subsystem (CGClass.cpp):
constructor prologue / destructor epilogue ordering, vtable-pointer
installation, base/derived address adjustment, and memberwise
copy / copy-assignment synthesis.

The emission functions are shallowly embedded: each `Emit...` definition
mirrors the control flow of the corresponding C++ function and returns the
list of abstract operations the function emits (constructor calls, stores,
destructor calls, ...).  Record-layout queries (byte/bit offsets of base
sub-objects, vtable address points) are an external collaborator and are
modelled as an oracle structure `Layout`.  Pointer values are modelled as
natural numbers with 0 as the null pointer; LLVM `getelementptr` on an
`i8*` becomes addition and the pointer subtraction of
`GetAddressOfDerivedClass` becomes truncated natural subtraction (the
function's contract only subtracts an offset that was previously added).
-/

/-- Constructor variants (`CXXCtorType`); the allocating variants do not
occur in the translated code. -/
inductive CXXCtorType where
  | complete
  | base
deriving DecidableEq, Repr

/-- Destructor variants (`CXXDtorType`). -/
inductive CXXDtorType where
  | deleting
  | complete
  | base
deriving DecidableEq, Repr

/-- What the code-generation functions test about a field's declared type
(after unwrapping a constant-array type to its base element type):
a scalar, a complex number, a class (record) type, or some other
aggregate. -/
inductive FieldKind where
  | scalarF
  | complexF
  | recordF
  | otherAgg
deriving DecidableEq, Repr

/-- One non-static data member, carrying exactly the attributes the
code-generation functions read: its position in declaration order, the
kind of its (base element) type, whether the declared type is a
constant-size array (and its element count), and, when the base element
type is a class, that class's name and triviality flags and whether it has
virtual bases. -/
structure FieldD where
  idx : Nat
  kind : FieldKind
  isArray : Bool
  arrLen : Nat
  clsNm : Nat
  trivDtor : Bool
  trivCopyCtor : Bool
  trivCopyAssign : Bool
  hasVBases : Bool
deriving DecidableEq, Repr

mutual
/-- A class declaration (`CXXRecordDecl`): name, direct bases in
declaration order (each tagged virtual or not), the list of all virtual
bases of the complete object (`vbases_begin()..vbases_end()`, computed by
semantic analysis, de-duplicated), fields in declaration order, and the
flags the translated functions query. -/
inductive CXXClass where
  | mk (name : Nat) (bases : BaseSpecList) (vbases : BaseSpecList)
       (fields : List FieldD) (isDynamic : Bool) (trivDtor : Bool)
       (trivCopyCtor : Bool) (trivCopyAssign : Bool)

/-- A base-specifier list: each entry is a virtual-or-not flag and the
base class. -/
inductive BaseSpecList where
  | nil
  | cons (isVirt : Bool) (cls : CXXClass) (rest : BaseSpecList)
end

def CXXClass.nm : CXXClass → Nat
  | .mk n _ _ _ _ _ _ _ => n

def CXXClass.bases : CXXClass → BaseSpecList
  | .mk _ bs _ _ _ _ _ _ => bs

def CXXClass.vbases : CXXClass → BaseSpecList
  | .mk _ _ vbs _ _ _ _ _ => vbs

def CXXClass.fields : CXXClass → List FieldD
  | .mk _ _ _ fs _ _ _ _ => fs

def CXXClass.isDynamic : CXXClass → Bool
  | .mk _ _ _ _ d _ _ _ => d

def CXXClass.trivDtor : CXXClass → Bool
  | .mk _ _ _ _ _ t _ _ => t

def CXXClass.trivCopyCtor : CXXClass → Bool
  | .mk _ _ _ _ _ _ t _ => t

def CXXClass.trivCopyAssign : CXXClass → Bool
  | .mk _ _ _ _ _ _ _ t => t

def BaseSpecList.toList : BaseSpecList → List (Bool × CXXClass)
  | .nil => []
  | .cons v c rest => (v, c) :: rest.toList

def BaseSpecList.isNil : BaseSpecList → Bool
  | .nil => true
  | .cons _ _ _ => false

/-- The names of the classes in a base-specifier list. -/
def baseNames (bs : BaseSpecList) : List Nat :=
  bs.toList.map (fun p => p.2.nm)

/-- Record-layout and vtable-layout queries, an external collaborator
(`ASTRecordLayout`, `CGVtableInfo`).  `getBaseClassOffset` and
`getVBaseClassOffset` are in bits, as in the source (the source divides by
8 at the byte-addressed uses); `vbRuntimeOffset` models the virtual-base
offset loaded at run time from the object's vtable
(`GetVirtualBaseClassOffset`), in bytes. -/
structure Layout where
  getBaseClassOffset : Nat → Nat → Nat
  getVBaseClassOffset : Nat → Nat → Nat
  addressPoint : Nat → Nat → Nat
  vbRuntimeOffset : Nat → Nat → Nat

/-- One step of a `CXXBasePath`: the class whose base-specifier list the
step reads, whether the specifier is virtual, and the base reached. -/
structure BasePathElem where
  cls : Nat
  virt : Bool
  base : Nat
deriving DecidableEq, Repr

mutual
/-- `isDerivedFrom` with recorded paths, returning `Paths.front()`: the
first path (depth-first, declaration order) from the class to a base with
the given name, or `none` when the name is not a base. -/
def findBasePath : CXXClass → Nat → Option (List BasePathElem)
  | .mk n bs _ _ _ _ _ _, target => findBasePathInBases n bs target

def findBasePathInBases (encl : Nat) : BaseSpecList → Nat → Option (List BasePathElem)
  | .nil, _ => none
  | .cons v c rest, target =>
    if c.nm = target then some [⟨encl, v, c.nm⟩]
    else
      match findBasePath c target with
      | some p => some (⟨encl, v, c.nm⟩ :: p)
      | none => findBasePathInBases encl rest target
end

/-- `ComputeNonVirtualBaseClassOffset`: the byte offset accumulated over
the path elements from `start` on; each element contributes its base's
offset within the element's class, `getBaseClassOffset(...) / 8`. -/
def ComputeNonVirtualBaseClassOffset (L : Layout) (path : List BasePathElem)
    (start : Nat) : Nat :=
  ((path.drop start).map (fun e => L.getBaseClassOffset e.cls e.base / 8)).sum

/-- The forward scan of `GetAddressOfBaseClass` over the path: the index
one past the last virtual element, and that element's base, or `none`
when the path has no virtual element.  `i` is the index of the head
element. -/
def lastVirtualInfo : List BasePathElem → Nat → Option (Nat × Nat)
  | [], _ => none
  | e :: rest, i =>
    match lastVirtualInfo rest (i + 1) with
    | some r => some r
    | none => if e.virt then some (i + 1, e.base) else none

/-- The value a pointer-adjustment function leaves in the emitted code,
plus whether the function emitted the null-check branch diamond
(`cast.null` / `cast.notnull` / `cast.end`). -/
structure AdjResult where
  val : Nat
  nullCheckBranch : Bool
deriving DecidableEq, Repr

/-- `CodeGenFunction::GetAddressOfBaseClass`.  Bitcasts do not change the
pointer value and are dropped; the assert-failure path (target not a
base) is `none`. -/
def GetAddressOfBaseClass (L : Layout) (cls : CXXClass) (baseNm : Nat)
    (nullCheckValue : Bool) (ptr : Nat) : Option AdjResult :=
  if cls.nm = baseNm then
    some ⟨ptr, false⟩
  else
    match findBasePath cls baseNm with
    | none => none
    | some path =>
      let sv := lastVirtualInfo path 0
      let start := (sv.map Prod.fst).getD 0
      let vbase := sv.map Prod.snd
      let offset := ComputeNonVirtualBaseClassOffset L path start
      if offset = 0 ∧ vbase = none then
        some ⟨ptr, false⟩
      else
        let virtOff := match vbase with
          | some v => L.vbRuntimeOffset cls.nm v
          | none => 0
        if nullCheckValue then
          some ⟨if ptr = 0 then 0 else ptr + virtOff + offset, true⟩
        else
          some ⟨ptr + virtOff + offset, false⟩

/-- `CodeGenModule::GetNonVirtualBaseClassOffset`: `some 0` stands for the
null constant the source returns both when the classes coincide and when
the accumulated offset is zero; `none` is the assert-failure path. -/
def GetNonVirtualBaseClassOffset (L : Layout) (cls : CXXClass)
    (baseNm : Nat) : Option Nat :=
  if cls.nm = baseNm then some 0
  else
    match findBasePath cls baseNm with
    | none => none
    | some path => some (ComputeNonVirtualBaseClassOffset L path 0)

/-- `CodeGenFunction::GetAddressOfDerivedClass`: subtracts the non-virtual
offset from derived to the pointer's static class. -/
def GetAddressOfDerivedClass (L : Layout) (clsNm : Nat) (derived : CXXClass)
    (nullCheckValue : Bool) (ptr : Nat) : Option AdjResult :=
  if derived.nm = clsNm then
    some ⟨ptr, false⟩
  else
    match GetNonVirtualBaseClassOffset L derived clsNm with
    | none => none
    | some 0 => some ⟨ptr, false⟩
    | some offset =>
      if nullCheckValue then
        some ⟨if ptr = 0 then 0 else ptr - offset, true⟩
      else
        some ⟨ptr - offset, false⟩

/-- Index trace of the ascending loops (`EmitClassAggrMemberwiseCopy`,
`EmitClassAggrCopyAssignment`, `EmitCXXAggrConstructorCall`): the index
cell starts at `i` (0 at the entry), the loop runs while `index < n`, the
body visits the index, then the index is incremented. -/
def ascendLoopTrace (n i : Nat) : List Nat :=
  if i < n then i :: ascendLoopTrace n (i + 1) else []
termination_by n - i
decreasing_by omega

/-- Index trace of the descending loop of `EmitCXXAggrDestructorCall`: the
index cell starts at the element count, the loop runs while `index ≠ 0`,
the body visits `index - 1`, then the index is decremented. -/
def descendLoopTrace : Nat → List Nat
  | 0 => []
  | n + 1 => n :: descendLoopTrace n

/-- One vtable-pointer store of `InitializeVtablePtrsRecursive`: the
address-point key is `(class name, offset in bits)`, and the store goes to
`this + keyOffset / 8` bytes. -/
structure VtStoreRec where
  nm : Nat
  keyOffset : Nat
  byteOffset : Nat
deriving DecidableEq, Repr

/-- Abstract operations emitted by the constructor prologue and destructor
epilogue.  `constructBase` stands for the evaluation of a base
initializer's construction expression into the base sub-object (it
carries the flags the emitter reads about the base); `memberInit` for the
evaluation of one member initializer; the `ehCleanup...` operations for
the registration of an exception-driven destructor cleanup. -/
inductive COp where
  | constructBase (nm : Nat) (virt : Bool) (trivDtor : Bool)
  | ehCleanupBase (nm : Nat)
  | memberInit (idx : Nat) (isRec : Bool) (trivDtor : Bool) (arr : Bool)
  | ehCleanupMember (idx : Nat)
  | vtStore (r : VtStoreRec)
  | dtorVBase (nm : Nat)
  | fieldDtor (idx : Nat) (arr : Bool)
  | dtorBase (nm : Nat)
  | deleteThis
deriving DecidableEq, Repr

mutual
/-- `CodeGenFunction::InitializeVtablePtrsRecursive`: nothing for a
non-dynamic class; otherwise the stores for the non-virtual bases (each
at the running offset plus the base's offset within this class), then the
store of this class's address point, keyed `(name, offset)`, at byte
offset `offset / 8`. -/
def InitializeVtablePtrsRecursive (L : Layout) : CXXClass → Nat → List VtStoreRec
  | .mk n bs _ _ dyn _ _ _, offset =>
    if dyn then
      initVtablePtrsBases L n bs offset ++ [⟨n, offset, offset / 8⟩]
    else []

/-- The loop of `InitializeVtablePtrsRecursive` over the direct bases:
virtual bases are skipped, non-virtual bases are visited recursively at
`offset + getBaseClassOffset`. -/
def initVtablePtrsBases (L : Layout) (encl : Nat) : BaseSpecList → Nat → List VtStoreRec
  | .nil, _ => []
  | .cons v c rest, offset =>
    (if v then []
     else InitializeVtablePtrsRecursive L c (offset + L.getBaseClassOffset encl c.nm))
    ++ initVtablePtrsBases L encl rest offset
end

/-- The loop of `InitializeVtablePtrs` over the virtual bases: each
virtual base is visited recursively at its complete-object offset
`getVBaseClassOffset`. -/
def initVtablePtrsVBases (L : Layout) (clsNm : Nat) : BaseSpecList → List VtStoreRec
  | .nil => []
  | .cons _ c rest =>
    InitializeVtablePtrsRecursive L c (L.getVBaseClassOffset clsNm c.nm)
    ++ initVtablePtrsVBases L clsNm rest

/-- `CodeGenFunction::InitializeVtablePtrs`: nothing for a non-dynamic
class; otherwise the address points for the virtual bases, then for the
non-virtual base hierarchy and the class itself at offset 0. -/
def InitializeVtablePtrs (L : Layout) (c : CXXClass) : List VtStoreRec :=
  if c.isDynamic then
    initVtablePtrsVBases L c.nm c.vbases ++ InitializeVtablePtrsRecursive L c 0
  else []

/-- An entry of a constructor's initializer list
(`CXXBaseOrMemberInitializer`): a base initializer carrying the base
class, or a member initializer carrying the field.  The initializer
expression itself is abstracted. -/
inductive InitEntry where
  | baseInit (tgt : CXXClass)
  | memberInit (f : FieldD)

/-- The static `EmitBaseInitializer`: whether the base is virtual is
decided by scanning the enclosing class's virtual-base list for the base;
a virtual base is skipped by the base-object variant; otherwise the
initializer is evaluated into the base sub-object (one `constructBase`
operation; the nested constructor call is a call into a separate
function), followed, when exceptions are on and the base's destructor is
non-trivial, by an EH-cleanup registration. -/
def EmitBaseInitializer (exceptions : Bool) (cls : CXXClass) (tgt : CXXClass)
    (ctorType : CXXCtorType) : List COp :=
  let isBaseVirtual := (baseNames cls.vbases).contains tgt.nm
  if ctorType = .base ∧ isBaseVirtual then []
  else
    [.constructBase tgt.nm isBaseVirtual tgt.trivDtor]
    ++ (if exceptions ∧ ¬tgt.trivDtor then [.ehCleanupBase tgt.nm] else [])

/-- The static `EmitMemberInitializer`: one `memberInit` operation for the
field (the reference / zero-fill / scalar / complex / aggregate branches
all evaluate the one initializer), followed, in the aggregate branch only
(a non-array record type) when exceptions are on and the field class's
destructor is non-trivial, by an EH-cleanup registration. -/
def EmitMemberInitializer (exceptions : Bool) (f : FieldD) : List COp :=
  [.memberInit f.idx (f.kind == FieldKind.recordF) f.trivDtor f.isArray]
  ++ (if exceptions ∧ f.kind = .recordF ∧ f.isArray = false ∧ ¬f.trivDtor then
        [.ehCleanupMember f.idx]
      else [])

/-- The loop of `EmitCtorPrologue` over the initializer list: base
initializers are emitted immediately, member initializers are collected
(in list order) for emission after the vtable pointers. -/
def ctorInitLoop (exceptions : Bool) (cls : CXXClass) (t : CXXCtorType) :
    List InitEntry → List COp × List FieldD
  | [] => ([], [])
  | .baseInit tgt :: rest =>
    let r := ctorInitLoop exceptions cls t rest
    (EmitBaseInitializer exceptions cls tgt t ++ r.1, r.2)
  | .memberInit f :: rest =>
    let r := ctorInitLoop exceptions cls t rest
    (r.1, f :: r.2)

/-- `CodeGenFunction::EmitCtorPrologue`: one pass over the initializer
list emitting base initializers and queueing member initializers, then
`InitializeVtablePtrs`, then the queued member initializers in order. -/
def EmitCtorPrologue (L : Layout) (exceptions : Bool) (cls : CXXClass)
    (inits : List InitEntry) (t : CXXCtorType) : List COp :=
  let r := ctorInitLoop exceptions cls t inits
  r.1 ++ (InitializeVtablePtrs L cls).map COp.vtStore
  ++ (r.2.map (EmitMemberInitializer exceptions)).flatten

/-- Modelled from the spec: semantic analysis (not among the sampled
sources) hands `EmitCtorPrologue` the constructor's initializer list
already in canonical order — the class's virtual bases first, then the
direct non-virtual bases in base-specifier (declaration) order, then the
members in field declaration order — independent of the order the
initializers were written in; missing initializers are filled in
implicitly.  The initializer expressions are abstracted, so the list
reduces to this canonical target sequence. -/
def semaCanonicalInits (c : CXXClass) : List InitEntry :=
  (c.vbases.toList.map (fun p => InitEntry.baseInit p.2))
  ++ ((c.bases.toList.filter (fun p => !p.1)).map (fun p => InitEntry.baseInit p.2))
  ++ (c.fields.map InitEntry.memberInit)

/-- `CodeGenFunction::EmitDtorEpilogue`.  Deleting variant: the delete
call.  Complete variant: a base-variant destructor call for each
non-trivially-destructible virtual base, in reverse virtual-base-list
order.  Base variant: destroy the non-trivially-destructible record
fields in reverse declaration order (array fields through the array
destructor loop), then the non-trivially-destructible non-virtual bases
in reverse declaration order. -/
def EmitDtorEpilogue (c : CXXClass) (t : CXXDtorType) : List COp :=
  match t with
  | .deleting => [.deleteThis]
  | .complete =>
    (c.vbases.toList.reverse.map (fun p =>
      if p.2.trivDtor then [] else [COp.dtorVBase p.2.nm])).flatten
  | .base =>
    let fds := c.fields.filter (fun f => f.kind == FieldKind.recordF && !f.trivDtor)
    (fds.reverse.map (fun f => [COp.fieldDtor f.idx f.isArray])).flatten
    ++ (c.bases.toList.reverse.map (fun p =>
        if p.1 || p.2.trivDtor then [] else [COp.dtorBase p.2.nm])).flatten

mutual
/-- The run-time construction trace (names of the classes whose
constructor the emitted code enters, in order) of one constructor
variant.  The per-function structure is `EmitCtorPrologue` over the
canonical initializer list: for the complete variant the virtual-base
entries, then the direct non-virtual-base entries; `EmitBaseInitializer`
skips an entry whose class is found in the enclosing class's virtual-base
list when the variant is `base`.  Modelled from the spec: the nested
construction of a base sub-object (the initializer's construct
expression, emitted outside the sampled sources) invokes that base's
base-object constructor variant — virtual bases are constructed only by
the complete-object constructor at the top. -/
def ctorConstructTrace : CXXClass → CXXCtorType → List Nat
  | .mk _ bs vbs _ _ _ _ _, t =>
    (if t = .complete then
      ctorTraceEntries (baseNames vbs) vbs t true
     else [])
    ++ ctorTraceEntries (baseNames vbs) bs t false

/-- The entries of one segment of the canonical initializer list:
`vbasePart = true` iterates the virtual-base segment (every entry
present), `vbasePart = false` the direct-base segment (only non-virtual
specifiers produce entries).  A constructed entry contributes its class
name followed by that class's base-variant construction trace. -/
def ctorTraceEntries (vbNames : List Nat) :
    BaseSpecList → CXXCtorType → Bool → List Nat
  | .nil, _, _ => []
  | .cons bv tgt rest, t, vbasePart =>
    (if (vbasePart ∨ ¬bv) ∧ ¬(t = .base ∧ vbNames.contains tgt.nm) then
      tgt.nm :: ctorConstructTrace tgt .base
     else [])
    ++ ctorTraceEntries vbNames rest t vbasePart
end

mutual
/-- Every inheritance edge whose target is named `v`, anywhere in the
class's base graph, is a virtual edge (so `v` can only be reached as a
virtual base). -/
def noNonVirtualEdgeTo (v : Nat) : CXXClass → Bool
  | .mk _ bs vbs _ _ _ _ _ => noNVEdgeBases v bs && noNVEdgeVBases v vbs

def noNVEdgeBases (v : Nat) : BaseSpecList → Bool
  | .nil => true
  | .cons bv tgt rest =>
    (bv || tgt.nm != v) && noNonVirtualEdgeTo v tgt && noNVEdgeBases v rest

def noNVEdgeVBases (v : Nat) : BaseSpecList → Bool
  | .nil => true
  | .cons _ tgt rest => noNonVirtualEdgeTo v tgt && noNVEdgeVBases v rest
end

/-- One argument pushed onto the `CallArgList` of an emitted constructor
or assignment-operator call. -/
inductive CallArg where
  | thisPtr
  | vttArg
  | srcPtr
deriving DecidableEq, Repr

/-- Abstract operations emitted by the copy / copy-assignment emitters.
`aggregateCopy` is `EmitAggregateCopy`, a flat byte-range copy of the
whole (sub-)object; the call operations carry the argument list that was
built for them; `vtStoreK` is a vtable-pointer store re-emitted by
`InitializeVtablePtrs`. -/
inductive KOp where
  | aggregateCopy
  | ctorCall (nm : Nat) (variant : CXXCtorType) (args : List CallArg)
  | assignCall (nm : Nat) (args : List CallArg)
  | dtorCall (nm : Nat)
  | scalarAssign (idx : Nat)
  | complexAssign (idx : Nat)
  | aggFieldCopy (idx : Nat)
  | vtStoreK (r : VtStoreRec)
  | storeReturnThis
deriving DecidableEq, Repr

/-- Modelled from the spec: `CGVtableInfo::needsVTTParameter` is not among
the sampled sources; per the spec a VTT is needed exactly for the
base-object constructor/destructor variants of a class with virtual bases
(the complete-object variant installs vtable pointers directly, and a
class without virtual bases has no VTT). -/
def needsVTTParameter (hasVBases : Bool) (t : CXXCtorType) : Bool :=
  t = .base && hasVBases

/-- `CodeGenFunction::EmitClassMemberwiseCopy`.  The class argument is
represented by the attributes the function reads: its name, whether its
copy constructor is trivial, and whether it has virtual bases (which
decides the VTT argument).  With a class context (a base sub-object) the
source and destination are first adjusted and the base-object constructor
variant is called; a trivial copy constructor degrades to a flat
aggregate copy; otherwise the copy constructor is called with arguments
`this`, the VTT when `GetVTTParameter` yields one, and the source. -/
def EmitClassMemberwiseCopy (hasClassContext : Bool) (nm : Nat)
    (trivCopyCtor : Bool) (hasVBases : Bool) : List KOp :=
  let ctorType : CXXCtorType := if hasClassContext then .base else .complete
  if trivCopyCtor then [.aggregateCopy]
  else
    [.ctorCall nm ctorType
      ([CallArg.thisPtr]
       ++ (if needsVTTParameter hasVBases ctorType then [CallArg.vttArg] else [])
       ++ [CallArg.srcPtr])]

/-- `CodeGenFunction::EmitClassCopyAssignment`: a trivial copy assignment
degrades to a flat aggregate copy; otherwise the assignment operator is
called with arguments `this` and the source — the argument list never
contains a VTT. -/
def EmitClassCopyAssignment (hasClassContext : Bool) (nm : Nat)
    (trivCopyAssign : Bool) : List KOp :=
  if trivCopyAssign then [.aggregateCopy]
  else [.assignCall nm [CallArg.thisPtr, CallArg.srcPtr]]

/-- `CodeGenFunction::EmitClassAggrMemberwiseCopy`: the ascending loop
over the array elements; each iteration emits a flat aggregate copy of
the element when the element class's copy constructor is trivial, and
otherwise a call of the element class's complete-object copy constructor
with arguments `this` and the source (no VTT is passed here). -/
def EmitClassAggrMemberwiseCopy (trivCopyCtor : Bool) (nm : Nat) (n : Nat) :
    List (Nat × KOp) :=
  (ascendLoopTrace n 0).map (fun i =>
    (i, if trivCopyCtor then KOp.aggregateCopy
        else KOp.ctorCall nm .complete [CallArg.thisPtr, CallArg.srcPtr]))

/-- `CodeGenFunction::EmitClassAggrCopyAssignment`: the ascending loop
over the array elements; flat aggregate copy for a trivial copy
assignment, otherwise a call of the element class's assignment operator
with arguments `this` and the source. -/
def EmitClassAggrCopyAssignment (trivCopyAssign : Bool) (nm : Nat) (n : Nat) :
    List (Nat × KOp) :=
  (ascendLoopTrace n 0).map (fun i =>
    (i, if trivCopyAssign then KOp.aggregateCopy
        else KOp.assignCall nm [CallArg.thisPtr, CallArg.srcPtr]))

/-- `CodeGenFunction::EmitCXXAggrDestructorCall`: the descending loop, one
complete-object destructor call per element from index `n - 1` down to
0. -/
def EmitCXXAggrDestructorCall (nm : Nat) (n : Nat) : List (Nat × KOp) :=
  (descendLoopTrace n).map (fun i => (i, KOp.dtorCall nm))

/-- The per-field work of `SynthesizeCXXCopyConstructor`: a record field
goes through the array memberwise-copy loop or `EmitClassMemberwiseCopy`
with no class context (so the complete-object variant, hence no VTT); a
scalar field is loaded and stored; a complex field copied as a pair; any
other aggregate gets a flat aggregate copy. -/
def synthFieldCopy (f : FieldD) : List KOp :=
  match f.kind with
  | .recordF =>
    if f.isArray then
      (EmitClassAggrMemberwiseCopy f.trivCopyCtor f.clsNm f.arrLen).map Prod.snd
    else
      EmitClassMemberwiseCopy false f.clsNm f.trivCopyCtor f.hasVBases
  | .scalarF => [.scalarAssign f.idx]
  | .complexF => [.complexAssign f.idx]
  | .otherAgg => [.aggFieldCopy f.idx]

/-- `CodeGenFunction::SynthesizeCXXCopyConstructor`: memberwise copy of
the non-virtual direct bases in declaration order (virtual bases are
skipped — the source marks this FIXME), then of the fields in declaration
order, then `InitializeVtablePtrs`. -/
def SynthesizeCXXCopyConstructor (L : Layout) (c : CXXClass) : List KOp :=
  (c.bases.toList.map (fun p =>
    if p.1 then []
    else EmitClassMemberwiseCopy true p.2.nm p.2.trivCopyCtor (!p.2.vbases.isNil))).flatten
  ++ (c.fields.map synthFieldCopy).flatten
  ++ (InitializeVtablePtrs L c).map KOp.vtStoreK

/-- The per-field work of `SynthesizeCXXCopyAssignment`, mirroring
`synthFieldCopy` with the assignment emitters. -/
def synthFieldAssign (f : FieldD) : List KOp :=
  match f.kind with
  | .recordF =>
    if f.isArray then
      (EmitClassAggrCopyAssignment f.trivCopyAssign f.clsNm f.arrLen).map Prod.snd
    else
      EmitClassCopyAssignment false f.clsNm f.trivCopyAssign
  | .scalarF => [.scalarAssign f.idx]
  | .complexF => [.complexAssign f.idx]
  | .otherAgg => [.aggFieldCopy f.idx]

/-- `CodeGenFunction::SynthesizeCXXCopyAssignment`: copy-assignment of the
non-virtual direct bases in declaration order (virtual bases skipped,
FIXME in the source), then of the fields, then the store of `this` into
the return slot.  No vtable pointer is stored anywhere in this
function. -/
def SynthesizeCXXCopyAssignment (c : CXXClass) : List KOp :=
  (c.bases.toList.map (fun p =>
    if p.1 then []
    else EmitClassCopyAssignment true p.2.nm p.2.trivCopyAssign)).flatten
  ++ (c.fields.map synthFieldAssign).flatten
  ++ [.storeReturnThis]

/-- The constructor-declaration attributes `EmitCXXConstructorCall`
reads. -/
structure CtorDecl where
  clsNm : Nat
  trivial : Bool
  hasVBases : Bool
deriving DecidableEq, Repr

/-- `CodeGenFunction::EmitCXXConstructorCall` with `numArgs` forwarded
call arguments: a trivial constructor with no arguments (a trivial
default constructor) emits nothing; a trivial constructor with one
argument (a trivial copy constructor) degrades to a flat aggregate copy
of the source; otherwise the chosen variant is called, with a VTT
argument when `GetVTTParameter` yields one. -/
def EmitCXXConstructorCall (d : CtorDecl) (t : CXXCtorType) (numArgs : Nat) :
    List KOp :=
  if d.trivial then
    if numArgs = 0 then []
    else [.aggregateCopy]
  else
    [.ctorCall d.clsNm t
      ([CallArg.thisPtr]
       ++ (if needsVTTParameter d.hasVBases t then [CallArg.vttArg] else [])
       ++ List.replicate numArgs CallArg.srcPtr)]

/-- Does an emitted call pass a VTT argument? -/
def passesVTT : KOp → Bool
  | .ctorCall _ _ args => args.contains CallArg.vttArg
  | .assignCall _ args => args.contains CallArg.vttArg
  | _ => false

/-- Is the operation a vtable-pointer store? -/
def isVtStoreK : KOp → Bool
  | .vtStoreK _ => true
  | _ => false

/-- Is the operation a constructor call? -/
def isCtorCall : KOp → Bool
  | .ctorCall _ _ _ => true
  | _ => false

/-- Byte-level semantics of `EmitAggregateCopy` over a range: memory is a
map from byte addresses to byte values; the copy replaces the bytes in
`[off, off + len)` of the destination with the source's. -/
def memCopyRange (dst src : Nat → Int) (off len : Nat) : Nat → Int :=
  fun i => if off ≤ i ∧ i < off + len then src i else dst i

/-- The flat strategy: one `EmitAggregateCopy` of the whole object,
`sizeof` = `size` bytes. -/
def flatAggregateCopy (dst src : Nat → Int) (size : Nat) : Nat → Int :=
  memCopyRange dst src 0 size

/-- The sub-object-wise strategy: one flat copy per sub-object byte range
(each a trivial copy), in order. -/
def subobjectwiseCopy (dst src : Nat → Int) : List (Nat × Nat) → (Nat → Int)
  | [] => dst
  | r :: rs => subobjectwiseCopy (memCopyRange dst src r.1 r.2) src rs

/-- A byte address is observable when some sub-object range covers it
(padding bytes are not observable). -/
def coveredBy (rs : List (Nat × Nat)) (i : Nat) : Prop :=
  ∃ r ∈ rs, r.1 ≤ i ∧ i < r.1 + r.2

/-- A non-virtual inheritance chain from `c` down to a (possibly
indirect, possibly `c` itself) base named `nm`, accumulating the sum of
the `getBaseClassOffset` contributions of the edges: exactly the offsets
the vtable-pointer installer's recursion can accumulate, since it never
descends through a virtual edge. -/
inductive NVChain (L : Layout) : CXXClass → Nat → Nat → Prop where
  | self : ∀ c, NVChain L c c.nm 0
  | step : ∀ (c : CXXClass) (p : Bool × CXXClass) (nm off : Nat),
      p ∈ c.bases.toList → p.1 = false → NVChain L p.2 nm off →
      NVChain L c nm (L.getBaseClassOffset c.nm p.2.nm + off)

/-- The base-initializer segment of the prologue over the canonical
initializer list: the virtual-base entries, then the non-virtual
direct-base entries. -/
def ctorBaseSegment (exc : Bool) (c : CXXClass) (t : CXXCtorType) : List COp :=
  (c.vbases.toList.map (fun p => EmitBaseInitializer exc c p.2 t)).flatten
  ++ ((c.bases.toList.filter (fun p => !p.1)).map
      (fun p => EmitBaseInitializer exc c p.2 t)).flatten

/-- Operations produced by `EmitBaseInitializer`. -/
def isBaseInitOp : COp → Bool
  | .constructBase _ _ _ => true
  | .ehCleanupBase _ => true
  | _ => false

/-- Operations produced by `EmitMemberInitializer`. -/
def isMemberInitOp : COp → Bool
  | .memberInit _ _ _ _ => true
  | .ehCleanupMember _ => true
  | _ => false

/-- The field indices of the member-initializer evaluations in a trace. -/
def memberIdxSeq (ops : List COp) : List Nat :=
  ops.filterMap (fun op => match op with
    | .memberInit i _ _ _ => some i
    | _ => none)

/-- The base classes constructed by a trace, in order. -/
def baseConstructTargets (ops : List COp) : List Nat :=
  ops.filterMap (fun op => match op with
    | .constructBase nm _ _ => some nm
    | _ => none)

/-- The sub-objects a constructor-prologue trace constructs, in order,
each tagged with whether it is non-trivially destructible (`inl` a base
by name, `inr` a field by index). -/
def constructedSeq (ops : List COp) : List ((Nat ⊕ Nat) × Bool) :=
  ops.filterMap (fun op => match op with
    | .constructBase nm _ td => some (Sum.inl nm, !td)
    | .memberInit idx isRec td _ => some (Sum.inr idx, isRec && !td)
    | _ => none)

/-- The sub-objects a destructor-epilogue trace destroys, in order. -/
def destroyedSeq (ops : List COp) : List (Nat ⊕ Nat) :=
  ops.filterMap (fun op => match op with
    | .dtorBase nm => some (Sum.inl nm)
    | .dtorVBase nm => some (Sum.inl nm)
    | .fieldDtor idx _ => some (Sum.inr idx)
    | _ => none)

/-! Concrete instances used by the witness theorems. -/

/-- A layout oracle answering 0 everywhere. -/
def L0 : Layout := ⟨fun _ _ => 0, fun _ _ => 0, fun _ _ => 0, fun _ _ => 0⟩

/-- A layout oracle with a 64-bit (8-byte) offset for every direct base. -/
def L64 : Layout := ⟨fun _ _ => 64, fun _ _ => 128, fun _ _ => 3, fun _ _ => 16⟩

/-- A base class with all operations trivial. -/
def leafTriv : CXXClass := .mk 1 .nil .nil [] false true true true

/-- A class derived non-virtually from `leafTriv`. -/
def derivedD0 : CXXClass := .mk 2 (.cons false leafTriv .nil) .nil [] false true true true

/-- A class named 1 with a non-trivial destructor and no bases. -/
def vNontriv : CXXClass := .mk 1 .nil .nil [] false false true true

/-- Left leg of a diamond over the virtual base `V`. -/
def diamondA (V : CXXClass) : CXXClass :=
  .mk 2 (.cons true V .nil) (.cons true V .nil) [] false false true true

/-- Right leg of a diamond over the virtual base `V`. -/
def diamondB (V : CXXClass) : CXXClass :=
  .mk 3 (.cons true V .nil) (.cons true V .nil) [] false false true true

/-- The diamond: two non-virtual direct bases, each virtually deriving
from `V`; `V` is the one virtual base of the complete object. -/
def diamondD (V : CXXClass) : CXXClass :=
  .mk 4 (.cons false (diamondA V) (.cons false (diamondB V) .nil))
    (.cons true V .nil) [] false false true true

/-- A base with a non-trivial destructor. -/
def baseAlpha : CXXClass := .mk 1 .nil .nil [] false false true true

/-- A base with a trivial destructor. -/
def baseBeta : CXXClass := .mk 2 .nil .nil [] false true true true

/-- A scalar field. -/
def fldScalar : FieldD := ⟨0, .scalarF, false, 0, 0, true, true, true, false⟩

/-- A record field whose class has a non-trivial destructor. -/
def fldRec : FieldD := ⟨1, .recordF, false, 0, 7, false, false, false, false⟩

/-- A class with two non-virtual bases and two fields, no virtual
bases. -/
def classGamma : CXXClass :=
  .mk 3 (.cons false baseAlpha (.cons false baseBeta .nil)) .nil
    [fldScalar, fldRec] false false false false

/-- Sub-object byte ranges of a 4-byte object split into two 2-byte
sub-objects. -/
def rangesW : List (Nat × Nat) := [(0, 2), (2, 2)]

/-- A destination memory holding 0 everywhere. -/
def dstW : Nat → Int := fun _ => 0

/-- A source memory holding the address as value. -/
def srcW : Nat → Int := fun i => (i : Int)

/-! Theorems.  Helper lemmas first, then one theorem (plus witness or
counterexample where applicable) per claim. -/

theorem ascendLoopTrace_eq_range' (n i : Nat) :
    ascendLoopTrace n i = List.range' i (n - i) := by
  unfold ascendLoopTrace
  split
  · next h =>
    rw [ascendLoopTrace_eq_range' n (i + 1)]
    have he : n - i = (n - (i + 1)) + 1 := by omega
    rw [he, List.range'_succ]
  · next h =>
    have he : n - i = 0 := by omega
    rw [he]
    rfl
termination_by n - i
decreasing_by omega

theorem ascendLoopTrace_zero (n : Nat) : ascendLoopTrace n 0 = List.range n := by
  rw [ascendLoopTrace_eq_range', List.range_eq_range']
  rfl

theorem descendLoopTrace_eq (n : Nat) :
    descendLoopTrace n = (List.range n).reverse := by
  induction n with
  | zero => rfl
  | succ k ih => simp [descendLoopTrace, ih, List.range_succ]

/-- C6: the emitted array copy loop performs exactly `n` per-element copy
operations in ascending index order from 0 (likewise the array
copy-assignment loop), the emitted array destroy loop performs exactly
`n` per-element destructor calls in descending order from `n - 1` down to
0, and for `n = 0` the loops perform zero element operations. -/
theorem claim_C6_array_loops (trivCC trivCA : Bool) (nm n : Nat) :
    (EmitClassAggrMemberwiseCopy trivCC nm n).map Prod.fst = List.range n
    ∧ (EmitClassAggrCopyAssignment trivCA nm n).map Prod.fst = List.range n
    ∧ (EmitCXXAggrDestructorCall nm n).map Prod.fst = (List.range n).reverse
    ∧ (EmitClassAggrMemberwiseCopy trivCC nm n).length = n
    ∧ (EmitCXXAggrDestructorCall nm n).length = n
    ∧ (n = 0 → EmitClassAggrMemberwiseCopy trivCC nm n = []
        ∧ EmitCXXAggrDestructorCall nm n = []) := by
  refine ⟨?_, ?_, ?_, ?_, ?_, ?_⟩
  · unfold EmitClassAggrMemberwiseCopy
    rw [ascendLoopTrace_zero, List.map_map]
    exact List.map_id' _
  · unfold EmitClassAggrCopyAssignment
    rw [ascendLoopTrace_zero, List.map_map]
    exact List.map_id' _
  · unfold EmitCXXAggrDestructorCall
    rw [descendLoopTrace_eq, List.map_map]
    exact List.map_id' _
  · simp [EmitClassAggrMemberwiseCopy, ascendLoopTrace_zero]
  · simp [EmitCXXAggrDestructorCall, descendLoopTrace_eq]
  · rintro rfl
    constructor
    · simp [EmitClassAggrMemberwiseCopy, ascendLoopTrace_zero]
    · simp [EmitCXXAggrDestructorCall, descendLoopTrace_eq]

theorem lastVirtualInfo_of_nonvirt (path : List BasePathElem)
    (h : ∀ e ∈ path, e.virt = false) : ∀ i, lastVirtualInfo path i = none := by
  induction path with
  | nil => intro i; rfl
  | cons e rest ih =>
    intro i
    have he : e.virt = false := h e (by simp)
    have hr : ∀ x ∈ rest, x.virt = false := fun x hx => h x (by simp [hx])
    simp [lastVirtualInfo, ih hr (i + 1), he]

/-- C5: when the inheritance path from `d` to the base named `b` crosses
no virtual edge, `GetAddressOfDerivedClass` applied to the result of
`GetAddressOfBaseClass` on a non-null pointer `p` yields `p` back (the
non-virtual offset is added, then subtracted), for any null-checking
choices; and with null-checking requested, a null input yields a null
result for both adjustments. -/
theorem claim_C5_adjust_roundtrip (L : Layout) (d : CXXClass) (b : Nat)
    (path : List BasePathElem) (p : Nat)
    (hne : d.nm ≠ b)
    (hfind : findBasePath d b = some path)
    (hnv : ∀ e ∈ path, e.virt = false)
    (hp : p ≠ 0) :
    (∀ nc1 nc2 : Bool, ∃ q r : AdjResult,
        GetAddressOfBaseClass L d b nc1 p = some q
        ∧ GetAddressOfDerivedClass L b d nc2 q.val = some r
        ∧ r.val = p)
    ∧ (∃ q : AdjResult, GetAddressOfBaseClass L d b true 0 = some q ∧ q.val = 0)
    ∧ (∃ r : AdjResult, GetAddressOfDerivedClass L b d true 0 = some r ∧ r.val = 0) := by
  have hlv : lastVirtualInfo path 0 = none := lastVirtualInfo_of_nonvirt path hnv 0
  by_cases hoff : ComputeNonVirtualBaseClassOffset L path 0 = 0
  · refine ⟨?_, ?_, ?_⟩
    · intro nc1 nc2
      refine ⟨⟨p, false⟩, ⟨p, false⟩, ?_, ?_, rfl⟩
      · simp [GetAddressOfBaseClass, hne, hfind, hlv, hoff]
      · simp [GetAddressOfDerivedClass, hne, GetNonVirtualBaseClassOffset, hfind, hoff]
    · refine ⟨⟨0, false⟩, ?_, rfl⟩
      simp [GetAddressOfBaseClass, hne, hfind, hlv, hoff]
    · refine ⟨⟨0, false⟩, ?_, rfl⟩
      simp [GetAddressOfDerivedClass, hne, GetNonVirtualBaseClassOffset, hfind, hoff]
  · obtain ⟨k, hk⟩ := Nat.exists_eq_succ_of_ne_zero hoff
    refine ⟨?_, ?_, ?_⟩
    · intro nc1 nc2
      refine ⟨⟨p + ComputeNonVirtualBaseClassOffset L path 0, nc1⟩,
              ⟨p, nc2⟩, ?_, ?_, rfl⟩
      · cases nc1 with
        | false => simp [GetAddressOfBaseClass, hne, hfind, hlv, hoff]
        | true => simp [GetAddressOfBaseClass, hne, hfind, hlv, hoff, hp]
      · have hmatch : GetNonVirtualBaseClassOffset L d b
            = some (ComputeNonVirtualBaseClassOffset L path 0) := by
          simp [GetNonVirtualBaseClassOffset, hne, hfind]
        cases nc2 with
        | false =>
          simp only [GetAddressOfDerivedClass, hmatch, hk]
          rw [if_neg hne]
          simp
        | true =>
          have hps : p + (k + 1) ≠ 0 := by omega
          simp only [GetAddressOfDerivedClass, hmatch, hk]
          rw [if_neg hne]
          simp [hps]
    · refine ⟨⟨0, true⟩, ?_, rfl⟩
      simp [GetAddressOfBaseClass, hne, hfind, hlv, hoff]
    · refine ⟨⟨0, true⟩, ?_, rfl⟩
      have hmatch : GetNonVirtualBaseClassOffset L d b
          = some (ComputeNonVirtualBaseClassOffset L path 0) := by
        simp [GetNonVirtualBaseClassOffset, hne, hfind]
      simp only [GetAddressOfDerivedClass, hmatch, hk]
      rw [if_neg hne]
      simp

/-- Witness for C5: the two-class chain `derivedD0` over `leafTriv` with
an 8-byte base offset, at pointer 5. -/
theorem claim_C5_adjust_roundtrip_witness :
    ∃ q r : AdjResult,
      GetAddressOfBaseClass L64 derivedD0 1 true 5 = some q
      ∧ GetAddressOfDerivedClass L64 1 derivedD0 false q.val = some r
      ∧ r.val = 5 :=
  (claim_C5_adjust_roundtrip L64 derivedD0 1 [⟨2, false, 1⟩] 5
    (by decide) (by decide) (by decide) (by decide)).1 true false

/-- C10: when the adjustment crosses no virtual edge and the total
non-virtual offset is zero (including the case derived = base), both
`GetAddressOfBaseClass` and `GetAddressOfDerivedClass` return the input
pointer unchanged and emit no null-check branch, even when null checking
is requested (so null trivially maps to null). -/
theorem claim_C10_zero_adjust (L : Layout) (d : CXXClass) (b : Nat)
    (hcond : d.nm = b
      ∨ ∃ path, findBasePath d b = some path
          ∧ (∀ e ∈ path, e.virt = false)
          ∧ ComputeNonVirtualBaseClassOffset L path 0 = 0) :
    ∀ (nc : Bool) (p : Nat),
      GetAddressOfBaseClass L d b nc p = some ⟨p, false⟩
      ∧ GetAddressOfDerivedClass L b d nc p = some ⟨p, false⟩ := by
  intro nc p
  by_cases heq : d.nm = b
  · constructor
    · simp [GetAddressOfBaseClass, heq]
    · simp [GetAddressOfDerivedClass, heq]
  · rcases hcond with heq' | ⟨path, hfind, hnv, hz⟩
    · exact absurd heq' heq
    · have hlv : lastVirtualInfo path 0 = none := lastVirtualInfo_of_nonvirt path hnv 0
      constructor
      · simp [GetAddressOfBaseClass, heq, hfind, hlv, hz]
      · simp [GetAddressOfDerivedClass, heq, GetNonVirtualBaseClassOffset, hfind, hz]

/-- Witness for C10: with the zero layout, adjusting through the
`derivedD0` → `leafTriv` edge is the identity and emits no branch, even
with null checking on and a non-null pointer. -/
theorem claim_C10_zero_adjust_witness :
    GetAddressOfBaseClass L0 derivedD0 1 true 5 = some ⟨5, false⟩
    ∧ GetAddressOfDerivedClass L0 1 derivedD0 true 5 = some ⟨5, false⟩ :=
  claim_C10_zero_adjust L0 derivedD0 1
    (Or.inr ⟨[⟨2, false, 1⟩], by decide, by decide, by decide⟩) true 5

theorem subobjectwiseCopy_val (src : Nat → Int) (rs : List (Nat × Nat)) (i : Nat) :
    ∀ dst : Nat → Int,
      subobjectwiseCopy dst src rs i = dst i ∨ subobjectwiseCopy dst src rs i = src i := by
  induction rs with
  | nil => intro dst; exact Or.inl rfl
  | cons r rest ih =>
    intro dst
    rcases ih (memCopyRange dst src r.1 r.2) with h | h
    · rw [subobjectwiseCopy, h]
      unfold memCopyRange
      split
      · exact Or.inr rfl
      · exact Or.inl rfl
    · exact Or.inr (by rw [subobjectwiseCopy, h])

theorem subobjectwiseCopy_covered (src : Nat → Int) (rs : List (Nat × Nat)) (i : Nat)
    (hc : coveredBy rs i) :
    ∀ dst : Nat → Int, subobjectwiseCopy dst src rs i = src i := by
  induction rs with
  | nil => rcases hc with ⟨r, hr, _⟩; cases hr
  | cons r rest ih =>
    intro dst
    rcases hc with ⟨r', hr', hle, hlt⟩
    rcases List.mem_cons.mp hr' with rfl | hmem
    · rcases subobjectwiseCopy_val src rest i (memCopyRange dst src r'.1 r'.2) with h | h
      · rw [subobjectwiseCopy, h]
        unfold memCopyRange
        rw [if_pos ⟨hle, hlt⟩]
      · rw [subobjectwiseCopy, h]
    · exact ih ⟨r', hmem, hle, hlt⟩ _

/-- C9: a sub-object whose class has a trivial copy constructor is copied
by one flat aggregate copy (no constructor call is emitted), a trivial
copy-constructor call at `EmitCXXConstructorCall` likewise degrades to a
flat aggregate copy of the source, and the flat whole-object copy is
observably equivalent to copying each sub-object range individually: on
every byte covered by a sub-object range the two strategies agree. -/
theorem claim_C9_trivial_flat_copy (rs : List (Nat × Nat)) (dst src : Nat → Int)
    (size i : Nat)
    (hin : ∀ r ∈ rs, r.1 + r.2 ≤ size)
    (hcov : coveredBy rs i) :
    (∀ (hasCtx : Bool) (nm : Nat) (hvb : Bool),
        EmitClassMemberwiseCopy hasCtx nm true hvb = [KOp.aggregateCopy]
        ∧ ∀ op ∈ EmitClassMemberwiseCopy hasCtx nm true hvb, isCtorCall op = false)
    ∧ (∀ (nm : Nat) (hvb : Bool) (t : CXXCtorType),
        EmitCXXConstructorCall ⟨nm, true, hvb⟩ t 1 = [KOp.aggregateCopy])
    ∧ subobjectwiseCopy dst src rs i = flatAggregateCopy dst src size i := by
  refine ⟨?_, ?_, ?_⟩
  · intro hasCtx nm hvb
    refine ⟨rfl, ?_⟩
    intro op hop
    rcases List.mem_singleton.mp hop with rfl
    rfl
  · intro nm hvb t
    rfl
  · rcases hcov with ⟨r, hr, hle, hlt⟩
    have hi : i < size := lt_of_lt_of_le hlt (hin r hr)
    rw [subobjectwiseCopy_covered src rs i ⟨r, hr, hle, hlt⟩ dst]
    unfold flatAggregateCopy memCopyRange
    rw [if_pos ⟨Nat.zero_le i, by omega⟩]

/-- Witness for C9: a 4-byte object split into two 2-byte sub-objects;
at the covered byte 1 both strategies yield the source byte. -/
theorem claim_C9_trivial_flat_copy_witness :
    subobjectwiseCopy dstW srcW rangesW 1 = flatAggregateCopy dstW srcW 4 1 :=
  (claim_C9_trivial_flat_copy rangesW dstW srcW 4 1 (by decide)
    (by unfold coveredBy; decide)).2.2

theorem assignOps_clean (hasCtx : Bool) (nm : Nat) (trivCA : Bool) :
    ∀ op ∈ EmitClassCopyAssignment hasCtx nm trivCA,
      passesVTT op = false ∧ isVtStoreK op = false := by
  intro op hop
  unfold EmitClassCopyAssignment at hop
  split at hop
  · rcases List.mem_singleton.mp hop with rfl
    exact ⟨rfl, rfl⟩
  · rcases List.mem_singleton.mp hop with rfl
    exact ⟨rfl, rfl⟩

theorem aggrAssignOps_clean (trivCA : Bool) (nm n : Nat) :
    ∀ op ∈ (EmitClassAggrCopyAssignment trivCA nm n).map Prod.snd,
      passesVTT op = false ∧ isVtStoreK op = false := by
  intro op hop
  rcases List.mem_map.mp hop with ⟨pr, hpr, rfl⟩
  unfold EmitClassAggrCopyAssignment at hpr
  rcases List.mem_map.mp hpr with ⟨i, _, rfl⟩
  dsimp only
  split
  · exact ⟨rfl, rfl⟩
  · exact ⟨rfl, rfl⟩

theorem synthFieldAssign_clean (f : FieldD) :
    ∀ op ∈ synthFieldAssign f, passesVTT op = false ∧ isVtStoreK op = false := by
  intro op hop
  unfold synthFieldAssign at hop
  cases hkind : f.kind <;> simp only [hkind] at hop
  · rcases List.mem_singleton.mp hop with rfl
    exact ⟨rfl, rfl⟩
  · rcases List.mem_singleton.mp hop with rfl
    exact ⟨rfl, rfl⟩
  · split at hop
    · exact aggrAssignOps_clean _ _ _ op hop
    · exact assignOps_clean _ _ _ op hop
  · rcases List.mem_singleton.mp hop with rfl
    exact ⟨rfl, rfl⟩

theorem vtSelfStore_mem (L : Layout) (c : CXXClass) (hdyn : c.isDynamic = true) :
    (⟨c.nm, 0, 0⟩ : VtStoreRec) ∈ InitializeVtablePtrs L c := by
  cases c with
  | mk n bs vbs fs d t1 t2 t3 =>
    have hd : d = true := hdyn
    unfold InitializeVtablePtrs InitializeVtablePtrsRecursive
    simp only [CXXClass.isDynamic, CXXClass.nm, CXXClass.vbases, hd, if_true]
    simp [List.mem_append, Nat.zero_div]

/-- C7: the emitted copy-assignment code never passes a VTT argument to
any invoked operation and never stores a vtable pointer (the synthesized
copy-assignment body leaves the vtable-pointer fields unchanged), whereas
the synthesized copy constructor calls each non-trivially-copyable
non-virtual base's base-variant copy constructor with a VTT argument
exactly when the base's class requires one (it has virtual bases), and
ends by installing vtable pointers (at least one store whenever the class
is dynamic). -/
theorem claim_C7_assignment_frame (L : Layout) (c : CXXClass) :
    (∀ op ∈ SynthesizeCXXCopyAssignment c, passesVTT op = false ∧ isVtStoreK op = false)
    ∧ (∀ (hasCtx : Bool) (nm : Nat) (trivCA : Bool),
        ∀ op ∈ EmitClassCopyAssignment hasCtx nm trivCA, passesVTT op = false)
    ∧ (c.isDynamic = true →
        ∃ r : VtStoreRec, KOp.vtStoreK r ∈ SynthesizeCXXCopyConstructor L c)
    ∧ (∀ p ∈ c.bases.toList, p.1 = false → p.2.trivCopyCtor = false →
        KOp.ctorCall p.2.nm CXXCtorType.base
          ([CallArg.thisPtr]
            ++ (if needsVTTParameter (!p.2.vbases.isNil) CXXCtorType.base
                then [CallArg.vttArg] else [])
            ++ [CallArg.srcPtr]) ∈ SynthesizeCXXCopyConstructor L c)
    ∧ (∀ hvb : Bool, needsVTTParameter hvb CXXCtorType.base = hvb) := by
  refine ⟨?_, ?_, ?_, ?_, ?_⟩
  · intro op hop
    unfold SynthesizeCXXCopyAssignment at hop
    rcases List.mem_append.mp hop with hab | hs
    · rcases List.mem_append.mp hab with ha | hb
      · rcases List.mem_flatten.mp ha with ⟨lst, hlst, hop2⟩
        rcases List.mem_map.mp hlst with ⟨p, hp, rfl⟩
        split at hop2
        · simp at hop2
        · exact assignOps_clean _ _ _ op hop2
      · rcases List.mem_flatten.mp hb with ⟨lst, hlst, hop2⟩
        rcases List.mem_map.mp hlst with ⟨f, hf, rfl⟩
        exact synthFieldAssign_clean f op hop2
    · rcases List.mem_singleton.mp hs with rfl
      exact ⟨rfl, rfl⟩
  · intro hasCtx nm trivCA op hop
    exact (assignOps_clean hasCtx nm trivCA op hop).1
  · intro hdyn
    refine ⟨⟨c.nm, 0, 0⟩, ?_⟩
    unfold SynthesizeCXXCopyConstructor
    exact List.mem_append.mpr (Or.inr
      (List.mem_map_of_mem _ (vtSelfStore_mem L c hdyn)))
  · intro p hp h1 h0
    unfold SynthesizeCXXCopyConstructor
    refine List.mem_append.mpr (Or.inl (List.mem_append.mpr (Or.inl ?_)))
    refine List.mem_flatten.mpr ⟨_, List.mem_map_of_mem _ hp, ?_⟩
    simp only [h1, Bool.false_eq_true, if_false]
    unfold EmitClassMemberwiseCopy
    simp [h0]
  · intro hvb
    simp [needsVTTParameter]

theorem initVtablePtrsVBases_eq_flatten (L : Layout) (clsNm : Nat) :
    ∀ bs : BaseSpecList,
      initVtablePtrsVBases L clsNm bs
        = (bs.toList.map (fun p =>
            InitializeVtablePtrsRecursive L p.2 (L.getVBaseClassOffset clsNm p.2.nm))).flatten
  | .nil => rfl
  | .cons v c rest => by
    simp [initVtablePtrsVBases, BaseSpecList.toList,
      initVtablePtrsVBases_eq_flatten L clsNm rest]

mutual
theorem vtRecStores_chain (L : Layout) :
    ∀ (c : CXXClass) (offset : Nat) (r : VtStoreRec),
      r ∈ InitializeVtablePtrsRecursive L c offset →
      ∃ off, NVChain L c r.nm off ∧ r.keyOffset = offset + off
        ∧ r.byteOffset = r.keyOffset / 8
  | .mk n bs vbs fs d t1 t2 t3, offset, r, hr => by
    unfold InitializeVtablePtrsRecursive at hr
    split at hr
    · rcases List.mem_append.mp hr with hb | hself
      · exact vtBasesStores_chain L (.mk n bs vbs fs d t1 t2 t3) bs offset r
          (fun p hp => hp) hb
      · rcases List.mem_singleton.mp hself with rfl
        exact ⟨0, NVChain.self _, by simp, rfl⟩
    · cases hr

theorem vtBasesStores_chain (L : Layout) :
    ∀ (c : CXXClass) (bs : BaseSpecList) (offset : Nat) (r : VtStoreRec),
      (∀ p ∈ bs.toList, p ∈ c.bases.toList) →
      r ∈ initVtablePtrsBases L c.nm bs offset →
      ∃ off, NVChain L c r.nm off ∧ r.keyOffset = offset + off
        ∧ r.byteOffset = r.keyOffset / 8
  | c, .nil, offset, r, _, hr => by cases hr
  | c, .cons v tc rest, offset, r, hsub, hr => by
    rcases List.mem_append.mp hr with hhead | htail
    · cases hv : v with
      | true => rw [hv] at hhead; cases hhead
      | false =>
        rw [hv] at hhead
        simp only [Bool.false_eq_true, if_false] at hhead
        obtain ⟨off', hchain, hkey, hbyte⟩ :=
          vtRecStores_chain L tc (offset + L.getBaseClassOffset c.nm tc.nm) r hhead
        refine ⟨L.getBaseClassOffset c.nm tc.nm + off', ?_, by omega, hbyte⟩
        exact NVChain.step c (false, tc) r.nm off'
          (hsub (false, tc) (by rw [hv]; simp [BaseSpecList.toList]))
          rfl hchain
    · exact vtBasesStores_chain L c rest offset r
        (fun p hp => hsub p (by simp [BaseSpecList.toList, hp]))
        htail
end

/-- C8: the vtable-pointer installer emits no store at all for a
non-dynamic class; for a dynamic class it first visits each virtual base
(one recursive visit per virtual-base-list entry, at that base's
complete-object offset), then the non-virtual base hierarchy and the
class itself at offset 0; and every store the recursion emits goes to
`this + keyOffset / 8` with a key `(name, keyOffset)` whose offset is the
entry offset plus a sum of non-virtual base offsets along a chain that
never crosses a virtual edge (`NVChain`). -/
theorem claim_C8_vtable_install (L : Layout) (c : CXXClass) (offset : Nat) :
    (c.isDynamic = false → InitializeVtablePtrs L c = []
      ∧ InitializeVtablePtrsRecursive L c offset = [])
    ∧ InitializeVtablePtrs L c
        = (if c.isDynamic then
            (c.vbases.toList.map (fun p =>
              InitializeVtablePtrsRecursive L p.2 (L.getVBaseClassOffset c.nm p.2.nm))).flatten
            ++ InitializeVtablePtrsRecursive L c 0
          else [])
    ∧ (∀ r ∈ InitializeVtablePtrsRecursive L c offset,
        r.byteOffset = r.keyOffset / 8
        ∧ ∃ off, NVChain L c r.nm off ∧ r.keyOffset = offset + off) := by
  refine ⟨?_, ?_, ?_⟩
  · intro hnd
    constructor
    · unfold InitializeVtablePtrs
      rw [hnd]
      rfl
    · cases c with
      | mk n bs vbs fs d t1 t2 t3 =>
        have hd : d = false := hnd
        unfold InitializeVtablePtrsRecursive
        rw [hd]
        rfl
  · unfold InitializeVtablePtrs
    split
    · rw [initVtablePtrsVBases_eq_flatten]
    · rfl
  · intro r hr
    obtain ⟨off, hchain, hkey, hbyte⟩ := vtRecStores_chain L c offset r hr
    exact ⟨hbyte, off, hchain, hkey⟩

theorem ctorInitLoop_bases_map (α : Type) (exc : Bool) (cls : CXXClass)
    (t : CXXCtorType) (g : α → CXXClass) (l : List α) (rest : List InitEntry) :
    ctorInitLoop exc cls t (l.map (fun a => InitEntry.baseInit (g a)) ++ rest)
      = ((l.map (fun a => EmitBaseInitializer exc cls (g a) t)).flatten
          ++ (ctorInitLoop exc cls t rest).1,
        (ctorInitLoop exc cls t rest).2) := by
  induction l with
  | nil => simp
  | cons a l ih => simp [ctorInitLoop, ih, List.append_assoc]

theorem ctorInitLoop_members_map (exc : Bool) (cls : CXXClass) (t : CXXCtorType)
    (fs : List FieldD) :
    ctorInitLoop exc cls t (fs.map InitEntry.memberInit) = ([], fs) := by
  induction fs with
  | nil => rfl
  | cons f fs ih => simp [ctorInitLoop, ih]

theorem EmitCtorPrologue_canonical (L : Layout) (exc : Bool) (c : CXXClass)
    (t : CXXCtorType) :
    EmitCtorPrologue L exc c (semaCanonicalInits c) t
      = ctorBaseSegment exc c t ++ (InitializeVtablePtrs L c).map COp.vtStore
        ++ (c.fields.map (EmitMemberInitializer exc)).flatten := by
  unfold EmitCtorPrologue semaCanonicalInits ctorBaseSegment
  simp only [List.append_assoc]
  simp only [ctorInitLoop_bases_map (Bool × CXXClass) exc c t (fun p => p.2),
    ctorInitLoop_members_map]
  simp [List.append_assoc]

theorem baseInitOps_pure (exc : Bool) (cls tgt : CXXClass) (t : CXXCtorType) :
    ∀ op ∈ EmitBaseInitializer exc cls tgt t, isBaseInitOp op = true := by
  intro op hop
  simp only [EmitBaseInitializer] at hop
  split at hop
  · cases hop
  · rcases List.mem_append.mp hop with h1 | h2
    · rcases List.mem_singleton.mp h1 with rfl
      rfl
    · split at h2
      · rcases List.mem_singleton.mp h2 with rfl
        rfl
      · cases h2

theorem memberInitOps_pure (exc : Bool) (f : FieldD) :
    ∀ op ∈ EmitMemberInitializer exc f, isMemberInitOp op = true := by
  intro op hop
  unfold EmitMemberInitializer at hop
  rcases List.mem_append.mp hop with h1 | h2
  · rcases List.mem_singleton.mp h1 with rfl
    rfl
  · split at h2
    · rcases List.mem_singleton.mp h2 with rfl
      rfl
    · cases h2

theorem memberIdxSeq_append (a b : List COp) :
    memberIdxSeq (a ++ b) = memberIdxSeq a ++ memberIdxSeq b := by
  unfold memberIdxSeq
  exact List.filterMap_append a b _

theorem memberIdxSeq_single (exc : Bool) (f : FieldD) :
    memberIdxSeq (EmitMemberInitializer exc f) = [f.idx] := by
  unfold EmitMemberInitializer memberIdxSeq
  split <;> rfl

theorem memberIdxSeq_flatten (exc : Bool) (fs : List FieldD) :
    memberIdxSeq ((fs.map (EmitMemberInitializer exc)).flatten)
      = fs.map (fun f => f.idx) := by
  induction fs with
  | nil => rfl
  | cons f fs ih =>
    simp only [List.map_cons, List.flatten_cons]
    rw [memberIdxSeq_append, memberIdxSeq_single, ih]
    rfl

/-- C1: over the canonical initializer list, the constructor prologue is
exactly the base-initializer segment, then all the vtable-pointer stores,
then the member initializers; the first segment consists only of
base-initialization operations, the last only of member-initialization
operations, and the member initializers are emitted in field declaration
order. -/
theorem claim_C1_ctor_prologue_phases (L : Layout) (exc : Bool) (c : CXXClass)
    (t : CXXCtorType) :
    EmitCtorPrologue L exc c (semaCanonicalInits c) t
      = ctorBaseSegment exc c t ++ (InitializeVtablePtrs L c).map COp.vtStore
        ++ (c.fields.map (EmitMemberInitializer exc)).flatten
    ∧ (∀ op ∈ ctorBaseSegment exc c t, isBaseInitOp op = true)
    ∧ (∀ op ∈ (InitializeVtablePtrs L c).map COp.vtStore, ∃ r, op = COp.vtStore r)
    ∧ (∀ op ∈ (c.fields.map (EmitMemberInitializer exc)).flatten,
        isMemberInitOp op = true)
    ∧ memberIdxSeq ((c.fields.map (EmitMemberInitializer exc)).flatten)
        = c.fields.map (fun f => f.idx) := by
  refine ⟨EmitCtorPrologue_canonical L exc c t, ?_, ?_, ?_, memberIdxSeq_flatten exc c.fields⟩
  · intro op hop
    unfold ctorBaseSegment at hop
    rcases List.mem_append.mp hop with h | h
    all_goals {
      rcases List.mem_flatten.mp h with ⟨lst, hlst, hop2⟩
      rcases List.mem_map.mp hlst with ⟨p, _, rfl⟩
      exact baseInitOps_pure exc c p.2 t op hop2
    }
  · intro op hop
    rcases List.mem_map.mp hop with ⟨r, _, rfl⟩
    exact ⟨r, rfl⟩
  · intro op hop
    rcases List.mem_flatten.mp hop with ⟨lst, hlst, hop2⟩
    rcases List.mem_map.mp hlst with ⟨f, _, rfl⟩
    exact memberInitOps_pure exc f op hop2

theorem baseConstructTargets_append (a b : List COp) :
    baseConstructTargets (a ++ b)
      = baseConstructTargets a ++ baseConstructTargets b := by
  unfold baseConstructTargets
  exact List.filterMap_append a b _

theorem baseConstructTargets_vtStores (l : List VtStoreRec) :
    baseConstructTargets (l.map COp.vtStore) = [] := by
  induction l with
  | nil => rfl
  | cons r l ih =>
    simpa [baseConstructTargets, List.filterMap_cons] using ih

theorem baseConstructTargets_member (exc : Bool) (f : FieldD) :
    baseConstructTargets (EmitMemberInitializer exc f) = [] := by
  unfold EmitMemberInitializer baseConstructTargets
  split <;> rfl

theorem baseConstructTargets_members (exc : Bool) (fs : List FieldD) :
    baseConstructTargets ((fs.map (EmitMemberInitializer exc)).flatten) = [] := by
  induction fs with
  | nil => rfl
  | cons f fs ih =>
    simp only [List.map_cons, List.flatten_cons]
    rw [baseConstructTargets_append, baseConstructTargets_member, ih]
    rfl

theorem baseConstructTargets_baseInit (exc : Bool) (cls tgt : CXXClass)
    (t : CXXCtorType) :
    baseConstructTargets (EmitBaseInitializer exc cls tgt t)
      = if t = CXXCtorType.base ∧ (baseNames cls.vbases).contains tgt.nm then []
        else [tgt.nm] := by
  simp only [EmitBaseInitializer]
  split
  · rfl
  · unfold baseConstructTargets
    rw [List.filterMap_append]
    split <;> rfl

theorem baseConstructTargets_segment (exc : Bool) (cls : CXXClass)
    (t : CXXCtorType) (l : List (Bool × CXXClass)) :
    baseConstructTargets ((l.map (fun p => EmitBaseInitializer exc cls p.2 t)).flatten)
      = (l.map (fun p =>
          if t = CXXCtorType.base ∧ (baseNames cls.vbases).contains p.2.nm then []
          else [p.2.nm])).flatten := by
  induction l with
  | nil => rfl
  | cons p l ih =>
    simp only [List.map_cons, List.flatten_cons]
    rw [baseConstructTargets_append, baseConstructTargets_baseInit, ih]

theorem flatten_map_singleton {α β : Type} (g : α → β) (l : List α) :
    (l.map (fun a => [g a])).flatten = l.map g := by
  induction l with
  | nil => rfl
  | cons a l ih => simp [ih]

theorem flatten_if_contains (vbn : List Nat) (l : List (Bool × CXXClass)) :
    (l.map (fun p =>
      if vbn.contains p.2.nm then ([] : List Nat) else [p.2.nm])).flatten
      = (l.map (fun p => p.2.nm)).filter (fun nm => !vbn.contains nm) := by
  induction l with
  | nil => rfl
  | cons p l ih =>
    by_cases h : p.2.nm ∈ vbn <;> simp_all [List.filter_cons]

theorem mem_baseNames_of_mem (bs : BaseSpecList) (p : Bool × CXXClass)
    (hp : p ∈ bs.toList) : (baseNames bs).contains p.2.nm = true := by
  unfold baseNames
  simpa using List.mem_map_of_mem (fun q => q.2.nm) hp

theorem targets_segment_complete (exc : Bool) (cls : CXXClass)
    (l : List (Bool × CXXClass)) :
    baseConstructTargets
        ((l.map (fun p => EmitBaseInitializer exc cls p.2 CXXCtorType.complete)).flatten)
      = l.map (fun p => p.2.nm) := by
  rw [baseConstructTargets_segment]
  have hif : ∀ p : Bool × CXXClass,
      (if CXXCtorType.complete = CXXCtorType.base
          ∧ (baseNames cls.vbases).contains p.2.nm then ([] : List Nat)
       else [p.2.nm]) = [p.2.nm] := by
    intro p
    rw [if_neg]
    rintro ⟨h, _⟩
    exact (by decide : CXXCtorType.complete ≠ CXXCtorType.base) h
  rw [List.map_congr_left (fun p _ => hif p)]
  exact flatten_map_singleton _ l

theorem targets_segment_base (exc : Bool) (cls : CXXClass)
    (l : List (Bool × CXXClass)) :
    baseConstructTargets
        ((l.map (fun p => EmitBaseInitializer exc cls p.2 CXXCtorType.base)).flatten)
      = (l.map (fun p => p.2.nm)).filter
          (fun nm => !(baseNames cls.vbases).contains nm) := by
  rw [baseConstructTargets_segment]
  have hif : ∀ p : Bool × CXXClass,
      (if CXXCtorType.base = CXXCtorType.base
          ∧ (baseNames cls.vbases).contains p.2.nm then ([] : List Nat)
       else [p.2.nm])
      = (if (baseNames cls.vbases).contains p.2.nm then ([] : List Nat)
         else [p.2.nm]) := by
    intro p
    by_cases h : (baseNames cls.vbases).contains p.2.nm = true
    · rw [if_pos ⟨rfl, h⟩, if_pos h]
    · rw [if_neg (fun hc => h hc.2), if_neg h]
  rw [List.map_congr_left (fun p _ => hif p)]
  exact flatten_if_contains _ l

theorem filter_not_contains_self (vbn : List Nat) :
    vbn.filter (fun nm => !vbn.contains nm) = [] := by
  induction vbn with
  | nil => rfl
  | cons a l ih =>
    simp only [List.filter_cons]
    have ha : (!((a :: l).contains a)) = false := by simp
    rw [ha]
    calc List.filter (fun nm => !(a :: l).contains nm) l
        = List.filter (fun nm => false) l := by
          apply List.filter_congr
          intro x hx
          simp [hx]
      _ = [] := by simp

/-- C2: over the canonical initializer list the emitted
base-initialization processes the bases in the order they appear in the
class's lists — for the complete-object variant the virtual bases first,
then the direct non-virtual bases in base-specifier (declaration) order;
for the base-object variant the direct non-virtual bases in declaration
order with the virtual ones skipped — and never in the user-written
initializer order, which semantic analysis has already canonicalized
away. -/
theorem claim_C2_base_decl_order (L : Layout) (exc : Bool) (c : CXXClass) :
    baseConstructTargets
        (EmitCtorPrologue L exc c (semaCanonicalInits c) CXXCtorType.complete)
      = baseNames c.vbases
        ++ (c.bases.toList.filter (fun p => !p.1)).map (fun p => p.2.nm)
    ∧ baseConstructTargets
        (EmitCtorPrologue L exc c (semaCanonicalInits c) CXXCtorType.base)
      = ((c.bases.toList.filter (fun p => !p.1)).map (fun p => p.2.nm)).filter
          (fun nm => !(baseNames c.vbases).contains nm) := by
  constructor
  · rw [EmitCtorPrologue_canonical, baseConstructTargets_append,
      baseConstructTargets_append, baseConstructTargets_vtStores,
      baseConstructTargets_members]
    unfold ctorBaseSegment
    rw [baseConstructTargets_append, targets_segment_complete,
      targets_segment_complete]
    simp [baseNames]
  · rw [EmitCtorPrologue_canonical, baseConstructTargets_append,
      baseConstructTargets_append, baseConstructTargets_vtStores,
      baseConstructTargets_members]
    unfold ctorBaseSegment
    rw [baseConstructTargets_append, targets_segment_base, targets_segment_base]
    have hvb : (c.vbases.toList.map (fun p => p.2.nm)).filter
        (fun nm => !(baseNames c.vbases).contains nm) = [] := by
      have : c.vbases.toList.map (fun p => p.2.nm) = baseNames c.vbases := rfl
      rw [this]
      exact filter_not_contains_self _
    rw [hvb]
    simp

theorem constructedSeq_append (a b : List COp) :
    constructedSeq (a ++ b) = constructedSeq a ++ constructedSeq b := by
  unfold constructedSeq
  exact List.filterMap_append a b _

theorem constructedSeq_vtStores (l : List VtStoreRec) :
    constructedSeq (l.map COp.vtStore) = [] := by
  induction l with
  | nil => rfl
  | cons r l ih => simpa [constructedSeq, List.filterMap_cons] using ih

theorem constructedSeq_member (exc : Bool) (f : FieldD) :
    constructedSeq (EmitMemberInitializer exc f)
      = [(Sum.inr f.idx, (f.kind == FieldKind.recordF) && !f.trivDtor)] := by
  unfold EmitMemberInitializer constructedSeq
  split <;> rfl

theorem constructedSeq_members (exc : Bool) (fs : List FieldD) :
    constructedSeq ((fs.map (EmitMemberInitializer exc)).flatten)
      = fs.map (fun f =>
          ((Sum.inr f.idx : Nat ⊕ Nat),
            (f.kind == FieldKind.recordF) && !f.trivDtor)) := by
  induction fs with
  | nil => rfl
  | cons f fs ih =>
    simp only [List.map_cons, List.flatten_cons]
    rw [constructedSeq_append, constructedSeq_member, ih]
    rfl

theorem constructedSeq_baseInit_novb (exc : Bool) (cls tgt : CXXClass)
    (t : CXXCtorType) (h : cls.vbases = BaseSpecList.nil) :
    constructedSeq (EmitBaseInitializer exc cls tgt t)
      = [(Sum.inl tgt.nm, !tgt.trivDtor)] := by
  simp only [EmitBaseInitializer, h]
  rw [if_neg (by simp [baseNames, BaseSpecList.toList])]
  unfold constructedSeq
  rw [List.filterMap_append]
  split <;> rfl

theorem constructedSeq_baseSegment_novb (exc : Bool) (c : CXXClass)
    (t : CXXCtorType) (h : c.vbases = BaseSpecList.nil)
    (l : List (Bool × CXXClass)) :
    constructedSeq ((l.map (fun p => EmitBaseInitializer exc c p.2 t)).flatten)
      = l.map (fun p => ((Sum.inl p.2.nm : Nat ⊕ Nat), !p.2.trivDtor)) := by
  induction l with
  | nil => rfl
  | cons p l ih =>
    simp only [List.map_cons, List.flatten_cons]
    rw [constructedSeq_append, constructedSeq_baseInit_novb exc c p.2 t h, ih]
    rfl

theorem destroyedSeq_append (a b : List COp) :
    destroyedSeq (a ++ b) = destroyedSeq a ++ destroyedSeq b := by
  unfold destroyedSeq
  exact List.filterMap_append a b _

theorem destroyedSeq_fieldPart (l : List FieldD) :
    destroyedSeq ((l.map (fun f => [COp.fieldDtor f.idx f.isArray])).flatten)
      = l.map (fun f => (Sum.inr f.idx : Nat ⊕ Nat)) := by
  induction l with
  | nil => rfl
  | cons f l ih =>
    simp only [List.map_cons, List.flatten_cons]
    rw [destroyedSeq_append, ih]
    rfl

theorem destroyedSeq_basePart (l : List (Bool × CXXClass)) :
    destroyedSeq ((l.map (fun p =>
        if p.1 || p.2.trivDtor then [] else [COp.dtorBase p.2.nm])).flatten)
      = (l.filter (fun p => !(p.1 || p.2.trivDtor))).map
          (fun p => (Sum.inl p.2.nm : Nat ⊕ Nat)) := by
  induction l with
  | nil => rfl
  | cons p l ih =>
    simp only [List.map_cons, List.flatten_cons, List.filter_cons]
    cases h : (p.1 || p.2.trivDtor) with
    | true =>
      simp only [Bool.not_true, if_false]
      rw [destroyedSeq_append, ih]
      rfl
    | false =>
      simp only [Bool.not_false, if_true]
      rw [destroyedSeq_append, ih]
      rfl

theorem ctorSeq_bases_filtered (l : List (Bool × CXXClass)) :
    ((l.map (fun p => ((Sum.inl p.2.nm : Nat ⊕ Nat), !p.2.trivDtor))).filter
        (fun q => q.2)).map Prod.fst
      = (l.filter (fun p => !p.2.trivDtor)).map
          (fun p => (Sum.inl p.2.nm : Nat ⊕ Nat)) := by
  induction l with
  | nil => rfl
  | cons p l ih =>
    cases h : p.2.trivDtor with
    | true => simpa [h] using ih
    | false => simpa [h] using ih

theorem ctorSeq_fields_filtered (fs : List FieldD) :
    ((fs.map (fun f =>
        ((Sum.inr f.idx : Nat ⊕ Nat),
          (f.kind == FieldKind.recordF) && !f.trivDtor))).filter
        (fun q => q.2)).map Prod.fst
      = (fs.filter (fun f => (f.kind == FieldKind.recordF) && !f.trivDtor)).map
          (fun f => (Sum.inr f.idx : Nat ⊕ Nat)) := by
  induction fs with
  | nil => rfl
  | cons f fs ih =>
    cases h : ((f.kind == FieldKind.recordF) && !f.trivDtor) with
    | true => simpa [h] using ih
    | false => simpa [h] using ih

/-- C4: for a class with no virtual bases, the base-object destructor
epilogue destroys the non-trivially-destructible fields in reverse
declaration order and then the non-trivially-destructible non-virtual
bases in reverse declaration order — exactly the reverse of the
non-trivially-destructible part of the bases-then-fields construction
sequence emitted by the constructor prologue. -/
theorem claim_C4_dtor_reverses_ctor (L : Layout) (exc : Bool) (c : CXXClass)
    (t : CXXCtorType)
    (h1 : c.vbases = BaseSpecList.nil)
    (h2 : ∀ p ∈ c.bases.toList, p.1 = false) :
    destroyedSeq (EmitDtorEpilogue c CXXDtorType.base)
      = (((constructedSeq
            (EmitCtorPrologue L exc c (semaCanonicalInits c) t)).filter
          (fun q => q.2)).map Prod.fst).reverse := by
  have hctor : constructedSeq (EmitCtorPrologue L exc c (semaCanonicalInits c) t)
      = (c.bases.toList.filter (fun p => !p.1)).map
          (fun p => ((Sum.inl p.2.nm : Nat ⊕ Nat), !p.2.trivDtor))
        ++ c.fields.map (fun f =>
            ((Sum.inr f.idx : Nat ⊕ Nat),
              (f.kind == FieldKind.recordF) && !f.trivDtor)) := by
    rw [EmitCtorPrologue_canonical, constructedSeq_append, constructedSeq_append,
      constructedSeq_vtStores, constructedSeq_members]
    unfold ctorBaseSegment
    rw [constructedSeq_append, constructedSeq_baseSegment_novb exc c t h1,
      constructedSeq_baseSegment_novb exc c t h1, h1]
    simp [BaseSpecList.toList]
  have hfilterAll : c.bases.toList.filter (fun p => !p.1) = c.bases.toList := by
    apply List.filter_eq_self.mpr
    intro p hp
    rw [h2 p hp]
    rfl
  rw [hctor, List.filter_append, List.map_append, List.reverse_append,
    ctorSeq_bases_filtered, ctorSeq_fields_filtered, hfilterAll]
  simp only [EmitDtorEpilogue]
  rw [destroyedSeq_append, destroyedSeq_fieldPart, destroyedSeq_basePart]
  have hpred : c.bases.toList.reverse.filter (fun p => !(p.1 || p.2.trivDtor))
      = c.bases.toList.reverse.filter (fun p => !p.2.trivDtor) := by
    apply List.filter_congr
    intro p hp
    rw [h2 p (List.mem_reverse.mp hp)]
    rfl
  rw [hpred, List.filter_reverse, List.map_reverse, List.map_reverse]

/-- Witness for C4: the concrete class `classGamma` (two non-virtual
bases, a scalar field and a non-trivially-destructible record field). -/
theorem claim_C4_dtor_reverses_ctor_witness :
    destroyedSeq (EmitDtorEpilogue classGamma CXXDtorType.base)
      = (((constructedSeq
            (EmitCtorPrologue L0 true classGamma (semaCanonicalInits classGamma)
              CXXCtorType.complete)).filter
          (fun q => q.2)).map Prod.fst).reverse :=
  claim_C4_dtor_reverses_ctor L0 true classGamma CXXCtorType.complete rfl (by decide)

mutual
theorem ctorTrace_base_count_zero (v : Nat) :
    ∀ (c : CXXClass), noNonVirtualEdgeTo v c = true →
      (ctorConstructTrace c CXXCtorType.base).count v = 0
  | .mk n bs vbs fs d t1 t2 t3, h => by
    have hsplit := h
    unfold noNonVirtualEdgeTo at hsplit
    simp only [Bool.and_eq_true] at hsplit
    have hb : noNVEdgeBases v bs = true := hsplit.1
    unfold ctorConstructTrace
    rw [if_neg (by decide : ¬(CXXCtorType.base = CXXCtorType.complete))]
    rw [List.nil_append]
    exact ctorEntries_base_count_zero v (baseNames vbs) bs hb

theorem ctorEntries_base_count_zero (v : Nat) (vbn : List Nat) :
    ∀ (bs : BaseSpecList), noNVEdgeBases v bs = true →
      (ctorTraceEntries vbn bs CXXCtorType.base false).count v = 0
  | .nil, _ => rfl
  | .cons bv tgt rest, h => by
    have h' := h
    unfold noNVEdgeBases at h'
    simp only [Bool.and_eq_true] at h'
    obtain ⟨⟨h1, h2⟩, h3⟩ := h'
    unfold ctorTraceEntries
    rw [List.count_append, ctorEntries_base_count_zero v vbn rest h3, Nat.add_zero]
    split
    · next hcond =>
      rcases hcond.1 with hf | hnbv
      · cases hf
      · have hbv : bv = false := by
          cases bv with
          | false => rfl
          | true => exact absurd rfl hnbv
        rw [hbv] at h1
        have hne : tgt.nm ≠ v := by
          have : (tgt.nm != v) = true := by simpa using h1
          exact bne_iff_ne.mp this
        rw [List.count_cons, ctorTrace_base_count_zero v tgt h2]
        simp [hne]
    · rfl
end

theorem ctorEntries_complete_vb_count (v : Nat) (vbn : List Nat) :
    ∀ (vbs : BaseSpecList), noNVEdgeVBases v vbs = true →
      (ctorTraceEntries vbn vbs CXXCtorType.complete true).count v
        = (baseNames vbs).count v
  | .nil, _ => rfl
  | .cons bv tgt rest, h => by
    have h' := h
    unfold noNVEdgeVBases at h'
    simp only [Bool.and_eq_true] at h'
    obtain ⟨h1, h2⟩ := h'
    unfold ctorTraceEntries
    rw [List.count_append, ctorEntries_complete_vb_count v vbn rest h2]
    rw [if_pos ⟨Or.inl rfl, by rintro ⟨hc, _⟩; cases hc⟩]
    rw [List.count_cons, ctorTrace_base_count_zero v tgt h1]
    have : baseNames (BaseSpecList.cons bv tgt rest)
        = tgt.nm :: baseNames rest := rfl
    rw [this, List.count_cons]
    omega

theorem ctorEntries_complete_direct_count (v : Nat) (vbn : List Nat) :
    ∀ (bs : BaseSpecList), noNVEdgeBases v bs = true →
      (ctorTraceEntries vbn bs CXXCtorType.complete false).count v = 0
  | .nil, _ => rfl
  | .cons bv tgt rest, h => by
    have h' := h
    unfold noNVEdgeBases at h'
    simp only [Bool.and_eq_true] at h'
    obtain ⟨⟨h1, h2⟩, h3⟩ := h'
    unfold ctorTraceEntries
    rw [List.count_append, ctorEntries_complete_direct_count v vbn rest h3,
      Nat.add_zero]
    split
    · next hcond =>
      rcases hcond.1 with hf | hnbv
      · cases hf
      · have hbv : bv = false := by
          cases bv with
          | false => rfl
          | true => exact absurd rfl hnbv
        rw [hbv] at h1
        have hne : tgt.nm ≠ v := by
          have : (tgt.nm != v) = true := by simpa using h1
          exact bne_iff_ne.mp this
        rw [List.count_cons, ctorTrace_base_count_zero v tgt h2]
        simp [hne]
    · rfl

theorem dtorVBase_count (v : Nat) (Vtd : Bool) :
    ∀ (l : List (Bool × CXXClass)),
      (∀ p ∈ l, p.2.nm = v → p.2.trivDtor = Vtd) →
      ((l.map (fun p =>
          if p.2.trivDtor then [] else [COp.dtorVBase p.2.nm])).flatten).count
          (COp.dtorVBase v)
        = if Vtd then 0 else (l.map (fun p => p.2.nm)).count v := by
  intro l
  induction l with
  | nil =>
    intro _
    cases Vtd <;> rfl
  | cons p rest ih =>
    intro h
    have hrest := ih (fun q hq => h q (List.mem_cons_of_mem _ hq))
    simp only [List.map_cons, List.flatten_cons]
    rw [List.count_append, hrest]
    by_cases htd : p.2.trivDtor = true
    · rw [if_pos htd]
      by_cases hnm : p.2.nm = v
      · have hVtd : Vtd = true := (h p (List.mem_cons_self p rest) hnm).symm.trans htd
        simp [hVtd]
      · cases hVtd : Vtd <;> simp [List.count_cons, hnm]
    · rw [if_neg htd]
      have htd' : p.2.trivDtor = false := Bool.not_eq_true _ ▸ htd
      by_cases hnm : p.2.nm = v
      · have hVtd : Vtd = false := (h p (List.mem_cons_self p rest) hnm).symm.trans htd'
        subst hnm
        simp [hVtd, List.count_cons]
        omega
      · cases hVtd : Vtd <;> simp [List.count_cons, List.count_singleton, hnm]

/-- C3 (amended): for a class whose base graph reaches the virtual base
named `v` only through virtual edges and whose virtual-base list holds
`v` exactly once, the emitted construction builds `v` exactly once — by
the complete-object variant; the base-object variant builds no virtual
base at all (its trace holds no construction of `v`) — and the
complete-object destructor epilogue emits exactly one destructor call for
`v` when its destructor is non-trivial, and none when it is trivial. -/
theorem claim_C3_virtual_base_once (v : Nat) (Vtd : Bool) (D : CXXClass)
    (hnv : noNonVirtualEdgeTo v D = true)
    (hone : (baseNames D.vbases).count v = 1)
    (htd : ∀ p ∈ D.vbases.toList, p.2.nm = v → p.2.trivDtor = Vtd) :
    (ctorConstructTrace D CXXCtorType.complete).count v = 1
    ∧ (ctorConstructTrace D CXXCtorType.base).count v = 0
    ∧ (EmitDtorEpilogue D CXXDtorType.complete).count (COp.dtorVBase v)
        = if Vtd then 0 else 1 := by
  refine ⟨?_, ctorTrace_base_count_zero v D hnv, ?_⟩
  · cases D with
    | mk n bs vbs fs d t1 t2 t3 =>
      have hsplit := hnv
      unfold noNonVirtualEdgeTo at hsplit
      simp only [Bool.and_eq_true] at hsplit
      obtain ⟨hb, hvb⟩ := hsplit
      unfold ctorConstructTrace
      rw [if_pos rfl, List.count_append,
        ctorEntries_complete_vb_count v (baseNames vbs) vbs hvb,
        ctorEntries_complete_direct_count v (baseNames vbs) bs hb]
      have hone' : (baseNames vbs).count v = 1 := hone
      omega
  · cases D with
    | mk n bs vbs fs d t1 t2 t3 =>
      have htd' : ∀ p ∈ vbs.toList.reverse, p.2.nm = v → p.2.trivDtor = Vtd :=
        fun p hp => htd p (List.mem_reverse.mp hp)
      simp only [EmitDtorEpilogue, CXXClass.vbases]
      rw [dtorVBase_count v Vtd vbs.toList.reverse htd']
      have hone' : (baseNames vbs).count v = 1 := hone
      have hrev : (vbs.toList.reverse.map (fun p => p.2.nm)).count v = 1 := by
        rw [List.map_reverse, List.count_reverse]
        exact hone'
      rw [hrev]

/-- Counterexample to C3 as stated: `diamondD leafTriv` has the virtual
base named 1, reachable through its two non-virtual direct bases, yet its
complete-object destructor epilogue emits no destructor call at all for
it (the virtual base's destructor is trivial), not exactly one. -/
theorem claim_C3_counterexample :
    baseNames (diamondD leafTriv).vbases = [1]
    ∧ (diamondD leafTriv).bases.toList.map (fun p => (p.1, p.2.nm))
        = [(false, 2), (false, 3)]
    ∧ baseNames (diamondA leafTriv).vbases = [1]
    ∧ baseNames (diamondB leafTriv).vbases = [1]
    ∧ (EmitDtorEpilogue (diamondD leafTriv) CXXDtorType.complete).count
        (COp.dtorVBase 1) = 0 := by
  decide

/-- Witness for C3: the diamond over the non-trivially-destructible
virtual base `vNontriv`. -/
theorem claim_C3_virtual_base_once_witness :
    (ctorConstructTrace (diamondD vNontriv) CXXCtorType.complete).count 1 = 1
    ∧ (ctorConstructTrace (diamondD vNontriv) CXXCtorType.base).count 1 = 0
    ∧ (EmitDtorEpilogue (diamondD vNontriv) CXXDtorType.complete).count
        (COp.dtorVBase 1) = if false then 0 else 1 :=
  claim_C3_virtual_base_once 1 false (diamondD vNontriv)
    (by decide) (by decide) (by decide)
